import Mathlib

/-!
# Verification of the `asynczip` aggregator (`src/asynczip.py`)

Shallow embedding of the `AsyncZip` class.  The aggregator keeps one
`asyncio` future per source in `self.iterating`; the abstract state of one
such future is modelled by `FutState`:

* `pending`   — the future is not done (`f.done()` is `False`);
* `value x`   — the future resolved with a result `x`;
* `exhausted` — the future resolved with a `StopAsyncIteration` exception
  (`f.done()` and `isinstance(f.exception(), StopAsyncIteration)`);
* `failed`    — the future resolved with any other exception.

The state of the whole aggregator at a given instant is a function
`Fin n → FutState`, one entry per slot, `n` being the number of sources
fixed at construction.  The concrete list the Python code iterates over
(`self.iterating`) is recovered as `List.ofFn s`.
-/

inductive FutState where
  | pending
  | value (x : Nat)
  | exhausted
  | failed
deriving DecidableEq, Repr

/-- `f.done()` on an asyncio future: every resolved state is done. -/
def isDone : FutState → Bool
  | .pending => false
  | _ => true

/-- `isinstance(f.exception(), StopAsyncIteration)` for a done future:
only a future resolved with `StopAsyncIteration` satisfies it (a future
holding a result has `exception() is None`, a failed one holds another
exception class). -/
def isStopAsyncIteration : FutState → Bool
  | .exhausted => true
  | _ => false

/-- The test `f.done() and isinstance(f.exception(), StopAsyncIteration)`
used throughout the source to recognise an exhausted slot. -/
def doneExhausted (f : FutState) : Bool := isDone f && isStopAsyncIteration f

/-- Module-level constant `FIRST_COMPLETED = 'FIRST_COMPLETED'`. -/
def FIRST_COMPLETED : String := "FIRST_COMPLETED"

/-- Module-level constant `ALL_COMPLETED = 'ALL_COMPLETED'`. -/
def ALL_COMPLETED : String := "ALL_COMPLETED"

/-- Embedding of `AsyncZip.should_wait`.  The Python method returns
`False`, `True`, or falls through returning `None` when `yield_when` is
neither recognised policy; we model the return value as `Option Bool`
(`none` = Python `None`).  The body mirrors the source line by line:
first the all-exhausted short-circuit, then the two policy branches,
each quantifying over the whole `self.iterating` list. -/
def should_wait (yield_when : String) {n : Nat} (s : Fin n → FutState) : Option Bool :=
  if (List.ofFn s).all (fun f => isDone f && isStopAsyncIteration f) then
    some false
  else if yield_when = FIRST_COMPLETED then
    some (!((List.ofFn s).any (fun f => isDone f && !(isStopAsyncIteration f))))
  else if yield_when = ALL_COMPLETED then
    some (!((List.ofFn s).all (fun f => isDone f && !(isStopAsyncIteration f))))
  else
    none

/-- Python truthiness of the `should_wait()` result as used in
`if self.should_wait(): await waiter` — `None` is falsy. -/
def truthy : Option Bool → Bool
  | some b => b
  | none => false

/-- Membership in `listenning_for`: the first loop of `__anext__` skips a
slot exactly when `f.done() and isinstance(f.exception(), StopAsyncIteration)`,
so a slot is listened to iff it is not exhausted. -/
def listenning_for {n : Nat} (s : Fin n → FutState) (i : Fin n) : Bool :=
  !(doneExhausted (s i))

/-- The `stop_async_iterations` counter computed by the result loop of
`__anext__`: slot `i` contributes 1 when it was skipped by the listener
loop (`i not in listenning_for`, i.e. exhausted in the entry state `s`),
or when its post-wait state `t i` is exhausted; otherwise 0. -/
def stop_async_iterations {n : Nat} (s t : Fin n → FutState) : Nat :=
  (List.ofFn (fun i =>
    if doneExhausted (s i) then (1 : Nat)
    else if doneExhausted (t i) then 1
    else 0)).sum

/-- Outcome of the result-building loop of `__anext__`, given the entry
state `s` (from which `listenning_for` was computed) and the post-wait
state `t` of the same futures. -/
structure RoundResult (n : Nat) where
  /-- `results`: the futures appended in index order (appended before any
  replacement, so each entry still holds its post-wait state). -/
  results : List FutState
  /-- `self.iterating` after the loop: reissued slots hold a fresh
  (pending) `ensure_future(iterator.__anext__())`, others keep their
  future unchanged. -/
  iterating : Fin n → FutState
  /-- which slots took the `elif f.done():` branch, i.e. got a fresh
  fetch issued on their iterator. -/
  reissued : Fin n → Bool
  /-- whether `stop_async_iterations == len(self.iterating)`, making
  `__anext__` raise `StopAsyncIteration` instead of returning `results`. -/
  raisesStop : Bool

/-- The result loop of `AsyncZip.__anext__` (everything after the optional
`await waiter`).  A slot is reissued exactly when it was in
`listenning_for` and its future is done but not with `StopAsyncIteration`
(the `elif f.done():` branch — note this includes futures resolved with a
non-`StopAsyncIteration` exception). -/
def nextRound {n : Nat} (s t : Fin n → FutState) : RoundResult n where
  results := List.ofFn t
  iterating := fun i =>
    if listenning_for s i && isDone (t i) && !(isStopAsyncIteration (t i)) then
      FutState.pending
    else t i
  reissued := fun i =>
    listenning_for s i && isDone (t i) && !(isStopAsyncIteration (t i))
  raisesStop := stop_async_iterations s t == n

/-- The waiter contract of `__anext__`: `waiter` is resolved by the
`_on_completion` callbacks attached to every listened future — under
`FIRST_COMPLETED` as soon as any listened future completes, under
`ALL_COMPLETED` once the counter (initialised to the number of listened
futures, decremented once per completion) reaches zero, i.e. once every
listened future has completed.  Unknown policies never reach the wait
(`should_wait` falls through to `None`, which is falsy). -/
def waiterCond (yield_when : String) {n : Nat} (s t : Fin n → FutState) : Prop :=
  (yield_when = FIRST_COMPLETED →
    ∃ i, listenning_for s i = true ∧ isDone (t i) = true) ∧
  (yield_when = ALL_COMPLETED →
    ∀ i, listenning_for s i = true → isDone (t i) = true)

/-- Relation between the entry state `s` of one `__anext__` call and the
state `t` its result loop observes.  Futures are write-once: a state
other than `pending` never changes, whether or not the call suspends.
If `should_wait()` is truthy the call awaits `waiter`, and the observed
state satisfies the waiter contract; otherwise no suspension point is
crossed before the result loop, so the state is read back unchanged. -/
def postWaitOk (yield_when : String) {n : Nat} (s t : Fin n → FutState) : Prop :=
  (∀ i, s i ≠ FutState.pending → t i = s i) ∧
  (truthy (should_wait yield_when s) = true → waiterCond yield_when s t) ∧
  (truthy (should_wait yield_when s) = false → ∀ i, t i = s i)

/-- State of the aggregator object as built by `AsyncZip.__init__`. -/
structure AsyncZipObj where
  yield_when : String
  iterating : List FutState
deriving DecidableEq, Repr

/-- Embedding of `AsyncZip.__init__(*iterables, loop=None, yield_when=...)`:
the constructor stores `yield_when` without validating it and initialises
the bookkeeping lists empty.  It contains no check and no raise, so it is
modelled as always returning `Except.ok` (an `Except` result type is used
so that "construction fails" is statable at all). -/
def AsyncZip_init (yield_when : String) : Except String AsyncZipObj :=
  Except.ok { yield_when := yield_when, iterating := [] }

/-- Embedding of `AsyncZip.__aiter__` for `sources` iterables: one
iterator is obtained per iterable and one first `__anext__` fetch is
issued per iterator, so `self.iterating` starts as one pending future per
source. -/
def aiter_iterating (sources : Nat) : Fin sources → FutState :=
  fun _ => FutState.pending

/-- A whole iteration history.  `entry k` is the state of the futures
when the `k`-th `__anext__` call starts its listener loop, `post k` the
state its result loop observes.  Between the result loop of round `k`
and the entry of round `k+1` only the scheduler runs: it can resolve
pending futures but never changes a resolved one, which is the `step`
constraint; `freeze` is the same write-once fact inside round `k`. -/
structure Trace (n : Nat) where
  entry : Nat → Fin n → FutState
  post : Nat → Fin n → FutState
  freeze : ∀ k i, entry k i ≠ FutState.pending → post k i = entry k i
  step : ∀ k i, (nextRound (entry k) (post k)).iterating i ≠ FutState.pending →
    entry (k + 1) i = (nextRound (entry k) (post k)).iterating i

/-! ## Basic facts about per-slot states -/

lemma doneExhausted_iff (f : FutState) : doneExhausted f = true ↔ f = FutState.exhausted := by
  cases f <;> simp [doneExhausted, isDone, isStopAsyncIteration]

lemma isDone_iff (f : FutState) : isDone f = true ↔ f ≠ FutState.pending := by
  cases f <;> simp [isDone]

lemma done_not_stop_iff (f : FutState) :
    (isDone f && !(isStopAsyncIteration f)) = true ↔
      ((∃ x, f = FutState.value x) ∨ f = FutState.failed) := by
  cases f <;> simp [isDone, isStopAsyncIteration]

/-! ## Characterisations of `should_wait` -/

lemma ofFn_all_iff {n : Nat} (s : Fin n → FutState) (p : FutState → Bool) :
    (List.ofFn s).all p = true ↔ ∀ i, p (s i) = true := by
  simp [List.all_eq_true, List.mem_ofFn]

lemma ofFn_any_iff {n : Nat} (s : Fin n → FutState) (p : FutState → Bool) :
    (List.ofFn s).any p = true ↔ ∃ i, p (s i) = true := by
  simp [List.any_eq_true, List.mem_ofFn]

/-- `should_wait` under `FIRST_COMPLETED` is falsy exactly when every slot
is exhausted or some non-exhausted slot has completed. -/
lemma should_wait_first_falsy {n : Nat} (s : Fin n → FutState) :
    truthy (should_wait FIRST_COMPLETED s) = false ↔
      ((∀ i, doneExhausted (s i) = true) ∨
        ∃ i, listenning_for s i = true ∧ isDone (s i) = true) := by
  unfold should_wait
  by_cases hall : (List.ofFn s).all (fun f => isDone f && isStopAsyncIteration f) = true
  · rw [if_pos hall]
    have h1 : ∀ i, doneExhausted (s i) = true := by
      intro i
      exact (ofFn_all_iff s _).mp hall i
    simp [truthy, h1]
  · rw [if_neg hall, if_pos rfl]
    have h1 : ¬ ∀ i, doneExhausted (s i) = true := by
      intro hc
      exact hall ((ofFn_all_iff s _).mpr hc)
    constructor
    · intro h
      right
      have hany : (List.ofFn s).any
          (fun f => isDone f && !(isStopAsyncIteration f)) = true := by
        by_contra hc
        simp [truthy, hc] at h
      obtain ⟨i, hi⟩ := (ofFn_any_iff s _).mp hany
      refine ⟨i, ?_, ?_⟩
      · simp only [Bool.and_eq_true, Bool.not_eq_true'] at hi
        simp [listenning_for, doneExhausted, hi.2]
      · simp only [Bool.and_eq_true] at hi
        exact hi.1
    · rintro (h | ⟨i, hlis, hdone⟩)
      · exact absurd h h1
      · have hstop : isStopAsyncIteration (s i) = false := by
          simp only [listenning_for, doneExhausted, Bool.not_eq_true',
            Bool.and_eq_false_iff] at hlis
          rcases hlis with h | h
          · rw [h] at hdone; exact absurd hdone (by simp)
          · exact h
        have hany : (List.ofFn s).any
            (fun f => isDone f && !(isStopAsyncIteration f)) = true := by
          refine (ofFn_any_iff s _).mpr ⟨i, ?_⟩
          simp [hdone, hstop]
        simp [truthy, hany]

/-- `should_wait` under `ALL_COMPLETED` is falsy exactly when every slot
is exhausted, or every slot has completed and none is exhausted.  Note
the second disjunct quantifies over all slots, exhausted ones included:
this is the whole-list `all()` of the source. -/
lemma should_wait_all_falsy {n : Nat} (s : Fin n → FutState) :
    truthy (should_wait ALL_COMPLETED s) = false ↔
      ((∀ i, doneExhausted (s i) = true) ∨
        ∀ i, isDone (s i) = true ∧ isStopAsyncIteration (s i) = false) := by
  unfold should_wait
  by_cases hall : (List.ofFn s).all (fun f => isDone f && isStopAsyncIteration f) = true
  · rw [if_pos hall]
    have h1 : ∀ i, doneExhausted (s i) = true := by
      intro i
      exact (ofFn_all_iff s _).mp hall i
    simp [truthy, h1]
  · have hfa : ¬ ((ALL_COMPLETED : String) = FIRST_COMPLETED) := by decide
    rw [if_neg hall, if_neg hfa, if_pos rfl]
    have h1 : ¬ ∀ i, doneExhausted (s i) = true := by
      intro hc
      exact hall ((ofFn_all_iff s _).mpr hc)
    constructor
    · intro h
      right
      have hdall : (List.ofFn s).all
          (fun f => isDone f && !(isStopAsyncIteration f)) = true := by
        by_contra hc
        simp [truthy, hc] at h
      intro i
      have := (ofFn_all_iff s _).mp hdall i
      simp only [Bool.and_eq_true, Bool.not_eq_true'] at this
      exact this
    · rintro (h | h)
      · exact absurd h h1
      · have hdall : (List.ofFn s).all
            (fun f => isDone f && !(isStopAsyncIteration f)) = true := by
          refine (ofFn_all_iff s _).mpr (fun i => ?_)
          have := h i
          simp [this.1, this.2]
        simp [truthy, hdall]

/-- An unrecognised policy makes `should_wait` fall through to Python
`None` unless every slot is already exhausted. -/
lemma should_wait_other {n : Nat} (y : String) (s : Fin n → FutState)
    (hf : y ≠ FIRST_COMPLETED) (ha : y ≠ ALL_COMPLETED)
    (hne : ¬ ∀ i, doneExhausted (s i) = true) :
    should_wait y s = none := by
  unfold should_wait
  have hall : ¬ (List.ofFn s).all (fun f => isDone f && isStopAsyncIteration f) = true := by
    intro hc
    exact hne ((ofFn_all_iff s _).mp hc)
  rw [if_neg hall, if_neg hf, if_neg ha]

/-! ## The stop counter and the emitted row -/

lemma sum_ofFn_le : ∀ {n : Nat} (f : Fin n → Nat), (∀ i, f i ≤ 1) → (List.ofFn f).sum ≤ n
  | 0, _, _ => by simp
  | n + 1, f, h => by
    rw [List.ofFn_succ, List.sum_cons]
    have h0 := h 0
    have hrest := sum_ofFn_le (fun i => f i.succ) (fun i => h i.succ)
    omega

lemma sum_ofFn_eq_iff : ∀ {n : Nat} (f : Fin n → Nat), (∀ i, f i ≤ 1) →
    ((List.ofFn f).sum = n ↔ ∀ i, f i = 1)
  | 0, _, _ => by
    constructor
    · intro _ i
      exact i.elim0
    · intro _
      simp
  | n + 1, f, h => by
    rw [List.ofFn_succ, List.sum_cons]
    have h0 := h 0
    have hle := sum_ofFn_le (fun i => f i.succ) (fun i => h i.succ)
    have ihr := sum_ofFn_eq_iff (fun i => f i.succ) (fun i => h i.succ)
    constructor
    · intro heq
      have hsplit : f 0 = 1 ∧ (List.ofFn fun i => f i.succ).sum = n := by omega
      intro i
      refine Fin.cases hsplit.1 (fun j => ?_) i
      exact (ihr.mp hsplit.2) j
    · intro hall
      have ha : f 0 = 1 := hall 0
      have hb : (List.ofFn fun i => f i.succ).sum = n := ihr.mpr (fun j => hall j.succ)
      omega

/-- `__anext__` raises `StopAsyncIteration` exactly when every slot
contributes to the counter: it was already exhausted when the listener
loop ran, or its post-wait future is exhausted. -/
lemma raisesStop_iff {n : Nat} (s t : Fin n → FutState) :
    (nextRound s t).raisesStop = true ↔
      ∀ i, doneExhausted (s i) = true ∨ doneExhausted (t i) = true := by
  show (stop_async_iterations s t == n) = true ↔ _
  rw [beq_iff_eq]
  unfold stop_async_iterations
  have hb : ∀ i, (if doneExhausted (s i) = true then (1 : Nat)
      else if doneExhausted (t i) = true then 1 else 0) ≤ 1 := by
    intro i
    by_cases h1 : doneExhausted (s i) = true <;>
      by_cases h2 : doneExhausted (t i) = true <;> simp [h1, h2]
  rw [sum_ofFn_eq_iff _ hb]
  constructor
  · intro h i
    have hi := h i
    by_cases h1 : doneExhausted (s i) = true
    · exact Or.inl h1
    · by_cases h2 : doneExhausted (t i) = true
      · exact Or.inr h2
      · simp [h1, h2] at hi
  · intro h i
    rcases h i with h1 | h1
    · simp [h1]
    · by_cases h2 : doneExhausted (s i) = true <;> simp [h1, h2]

/-- Entry `i` of the `results` list built by the result loop is slot `i`'s
post-wait future, independently of which slots completed first. -/
lemma results_getD {n : Nat} (s t : Fin n → FutState) (i : Fin n) (d : FutState) :
    (nextRound s t).results.getD i.val d = t i := by
  show (List.ofFn t).getD i.val d = t i
  have hlt : i.val < (List.ofFn t).length := by simp
  rw [List.getD_eq_getElem _ _ hlt]
  simp

/-- An exhausted slot is skipped by the listener loop, hence never takes
the `elif f.done():` reissue branch. -/
lemma reissued_eq_false_of_exhausted {n : Nat} (s t : Fin n → FutState) (i : Fin n)
    (h : s i = FutState.exhausted) : (nextRound s t).reissued i = false := by
  simp [nextRound, listenning_for, doneExhausted, isDone, isStopAsyncIteration, h]

/-- An exhausted slot keeps its future unchanged through the result loop. -/
lemma iterating_eq_of_exhausted {n : Nat} (s t : Fin n → FutState) (i : Fin n)
    (h : s i = FutState.exhausted) : (nextRound s t).iterating i = t i := by
  simp [nextRound, listenning_for, doneExhausted, isDone, isStopAsyncIteration, h]

/-- Along any trace, a slot whose future is exhausted at the entry of
round `k` is still exhausted at the entry of every round `m ≥ k`: the
future is write-once, the result loop never replaces it, and the
scheduler cannot change a resolved future. -/
lemma trace_exhausted_persists {n : Nat} (tr : Trace n) (k : Nat) (i : Fin n)
    (h : tr.entry k i = FutState.exhausted) :
    ∀ m, k ≤ m → tr.entry m i = FutState.exhausted := by
  intro m hm
  induction m, hm using Nat.le_induction with
  | base => exact h
  | succ m hm ih =>
    have hpost : tr.post m i = FutState.exhausted := by
      rw [tr.freeze m i (by rw [ih]; exact fun hc => FutState.noConfusion hc), ih]
    have hiter : (nextRound (tr.entry m) (tr.post m)).iterating i = FutState.exhausted := by
      rw [iterating_eq_of_exhausted _ _ _ ih, hpost]
    rw [tr.step m i (by rw [hiter]; exact fun hc => FutState.noConfusion hc), hiter]

/-! ## Claim theorems -/

/-- A reachable two-slot state: slot 0 has resolved `StopAsyncIteration`
(exhausted), slot 1 has resolved with a value. -/
def mixedState : Fin 2 → FutState :=
  fun i => if i = 0 then FutState.exhausted else FutState.value 7

/-- C1, counterexample.  In `mixedState` every slot of the active set
(here only slot 1) has a resolved operation, yet under `ALL_COMPLETED`
`should_wait` returns `True`, so `nextRow` does wait: the claimed
"ready iff every index in A has a resolved operation" is false, and so is
its "in particular" instance (some slots exhausted, all non-exhausted
slots resolved). -/
theorem c1_all_ready_cex :
    (∀ i, listenning_for mixedState i = true → isDone (mixedState i) = true) ∧
    truthy (should_wait ALL_COMPLETED mixedState) = true := by
  decide

/-- C1, amended.  Under `ALL_COMPLETED` the ready check (`should_wait`
falsy) holds iff every slot is exhausted, or every slot — exhausted ones
included — has completed and none is exhausted: the `all()` of the second
short-circuit ranges over the whole `self.iterating` list, so a state
mixing exhausted slots with resolved active slots is not ready. -/
theorem c1_all_ready_amended {n : Nat} (s : Fin n → FutState) :
    truthy (should_wait ALL_COMPLETED s) = false ↔
      ((∀ i, doneExhausted (s i) = true) ∨
        ∀ i, isDone (s i) = true ∧ isStopAsyncIteration (s i) = false) :=
  should_wait_all_falsy s

/-- C6.  Under `FIRST_COMPLETED`: when the active set is empty (every
slot exhausted) the state is ready, and when it is not empty the ready
check holds iff at least one active slot has a resolved operation. -/
theorem c6_first_ready {n : Nat} (s : Fin n → FutState) :
    ((∀ i, doneExhausted (s i) = true) →
      truthy (should_wait FIRST_COMPLETED s) = false) ∧
    ((¬ ∀ i, doneExhausted (s i) = true) →
      (truthy (should_wait FIRST_COMPLETED s) = false ↔
        ∃ i, listenning_for s i = true ∧ isDone (s i) = true)) := by
  constructor
  · intro h
    exact (should_wait_first_falsy s).mpr (Or.inl h)
  · intro hne
    constructor
    · intro h
      rcases (should_wait_first_falsy s).mp h with h1 | h1
      · exact absurd h1 hne
      · exact h1
    · intro h
      exact (should_wait_first_falsy s).mpr (Or.inr h)

/-- C6 witness: in `mixedState` the active set is nonempty and contains a
resolved slot, and the ready check indeed holds. -/
theorem c6_first_ready_witness :
    (¬ ∀ i, doneExhausted (mixedState i) = true) ∧
    (truthy (should_wait FIRST_COMPLETED mixedState) = false ↔
      ∃ i, listenning_for mixedState i = true ∧ isDone (mixedState i) = true) :=
  ⟨by decide, (c6_first_ready mixedState).2 (by decide)⟩

/-- C4.  Provided resolved futures never change (`hfreeze`), `__anext__`
raises `StopAsyncIteration` instead of returning a row exactly when every
slot's operation has resolved `StopAsyncIteration` at the end of the
round; and with an empty source list every call raises, so no row is ever
emitted. -/
theorem c4_stop_iff_all_exhausted {n : Nat} (s t : Fin n → FutState)
    (hfreeze : ∀ i, s i ≠ FutState.pending → t i = s i) :
    ((nextRound s t).raisesStop = true ↔ ∀ i, doneExhausted (t i) = true) ∧
    (∀ s0 t0 : Fin 0 → FutState, (nextRound s0 t0).raisesStop = true) := by
  constructor
  · rw [raisesStop_iff]
    constructor
    · intro h i
      rcases h i with h1 | h1
      · have hs : s i = FutState.exhausted := (doneExhausted_iff _).mp h1
        have ht : t i = s i :=
          hfreeze i (by rw [hs]; exact fun hc => FutState.noConfusion hc)
        rw [ht, hs]
        rfl
      · exact h1
    · intro h i
      exact Or.inr (h i)
  · intro s0 t0
    rw [raisesStop_iff]
    exact fun i => i.elim0

/-- C4 witness: the aggregator built over zero sources (`aiter_iterating 0`)
raises on its very first `__anext__` call. -/
theorem c4_stop_witness :
    (∀ i, aiter_iterating 0 i ≠ FutState.pending →
      aiter_iterating 0 i = aiter_iterating 0 i) ∧
    (nextRound (aiter_iterating 0) (aiter_iterating 0)).raisesStop = true :=
  ⟨fun i => i.elim0,
    ((c4_stop_iff_all_exhausted (aiter_iterating 0) (aiter_iterating 0)
      (fun i => i.elim0)).1).mpr (fun i => i.elim0)⟩

/-- C9.  The futures list starts with one slot per source, the emitted
`results` list always has exactly one entry per slot, and entry `i` is
slot `i`'s own future — for every post-wait state, i.e. regardless of
completion order. -/
theorem c9_row_length_order {n : Nat} (s t : Fin n → FutState) :
    (List.ofFn (aiter_iterating n)).length = n ∧
    (nextRound s t).results.length = n ∧
    ∀ i : Fin n, (nextRound s t).results.getD i.val FutState.pending = t i := by
  refine ⟨by simp, ?_, fun i => results_getD s t i FutState.pending⟩
  show (List.ofFn t).length = n
  simp

/-- C5.  Exhaustion is monotonic along every trace: a slot exhausted at
the entry of round `k` is, in every round `m ≥ k`, never reissued a fetch
(`reissued` stays `false`, i.e. `__anext__` is never called again on its
iterator) and appears as `Exhausted` in that round's `results` entry. -/
theorem c5_exhaustion_monotonic {n : Nat} (tr : Trace n) (k m : Nat) (i : Fin n)
    (hexh : doneExhausted (tr.entry k i) = true) (hkm : k ≤ m) :
    (nextRound (tr.entry m) (tr.post m)).reissued i = false ∧
    (nextRound (tr.entry m) (tr.post m)).results.getD i.val FutState.pending =
      FutState.exhausted := by
  have h0 : tr.entry k i = FutState.exhausted := (doneExhausted_iff _).mp hexh
  have hm := trace_exhausted_persists tr k i h0 m hkm
  have hpost : tr.post m i = FutState.exhausted := by
    rw [tr.freeze m i (by rw [hm]; exact fun hc => FutState.noConfusion hc), hm]
  refine ⟨reissued_eq_false_of_exhausted _ _ _ hm, ?_⟩
  rw [results_getD, hpost]

/-- A one-slot trace whose only future has already resolved
`StopAsyncIteration` in every round. -/
def constTrace : Trace 1 where
  entry := fun _ _ => FutState.exhausted
  post := fun _ _ => FutState.exhausted
  freeze := fun _ _ _ => rfl
  step := fun _ _ _ => rfl

/-- C5 witness: in `constTrace`, slot 0 exhausted at round 0 is not
reissued at round 2 and its row entry there is `Exhausted`. -/
theorem c5_exhaustion_monotonic_witness :
    doneExhausted (constTrace.entry 0 0) = true ∧ 0 ≤ 2 ∧
    ((nextRound (constTrace.entry 2) (constTrace.post 2)).reissued 0 = false ∧
      (nextRound (constTrace.entry 2) (constTrace.post 2)).results.getD
        (0 : Fin 1).val FutState.pending = FutState.exhausted) :=
  ⟨by decide, by decide, c5_exhaustion_monotonic constTrace 0 2 0 (by decide) (by decide)⟩

/-- C10.  Once every slot's future has resolved `StopAsyncIteration` at
the entry of round `k` (the round that raised `StopAsyncIteration`),
every round `m ≥ k` under any policy finds `should_wait` falsy (no
suspension), reissues no fetch on any iterator, and raises again instead
of emitting a row. -/
theorem c10_stop_terminal {n : Nat} (tr : Trace n) (y : String) (k m : Nat)
    (hall : ∀ i, doneExhausted (tr.entry k i) = true) (hkm : k ≤ m) :
    truthy (should_wait y (tr.entry m)) = false ∧
    (∀ i, (nextRound (tr.entry m) (tr.post m)).reissued i = false) ∧
    (nextRound (tr.entry m) (tr.post m)).raisesStop = true := by
  have hm : ∀ i, tr.entry m i = FutState.exhausted := fun i =>
    trace_exhausted_persists tr k i ((doneExhausted_iff _).mp (hall i)) m hkm
  have hde : ∀ i, doneExhausted (tr.entry m i) = true := fun i => by
    rw [hm i]
    rfl
  refine ⟨?_, fun i => reissued_eq_false_of_exhausted _ _ _ (hm i), ?_⟩
  · unfold should_wait
    rw [if_pos ((ofFn_all_iff (tr.entry m)
      (fun f => isDone f && isStopAsyncIteration f)).mpr hde)]
    rfl
  · rw [raisesStop_iff]
    exact fun i => Or.inl (hde i)

/-- C10 witness: `constTrace` is all-exhausted at round 0; at round 3 the
ready check is already satisfied, no fetch is issued, and the call raises
again. -/
theorem c10_stop_terminal_witness :
    (∀ i, doneExhausted (constTrace.entry 0 i) = true) ∧ 0 ≤ 3 ∧
    (truthy (should_wait FIRST_COMPLETED (constTrace.entry 3)) = false ∧
      (∀ i, (nextRound (constTrace.entry 3) (constTrace.post 3)).reissued i = false) ∧
      (nextRound (constTrace.entry 3) (constTrace.post 3)).raisesStop = true) :=
  ⟨by decide, by decide,
    c10_stop_terminal constTrace FIRST_COMPLETED 0 3 (by decide) (by decide)⟩

/-- A reachable one-slot state whose only future has resolved with a
value. -/
def valueState : Fin 1 → FutState := fun _ => FutState.value 3

/-- C7.  Under `ALL_COMPLETED`, for every `__anext__` call whose observed
post-wait state obeys the wait contract, every slot that was in the
active set when the round started is non-`Pending` in the emitted
`results` entry: it is a value, exhausted, or failed. -/
theorem c7_all_no_pending {n : Nat} (s t : Fin n → FutState)
    (hpw : postWaitOk ALL_COMPLETED s t)
    (_hemit : (nextRound s t).raisesStop = false)
    (i : Fin n) (hact : listenning_for s i = true) :
    ((∃ x, (nextRound s t).results.getD i.val FutState.pending = FutState.value x) ∨
      (nextRound s t).results.getD i.val FutState.pending = FutState.exhausted ∨
      (nextRound s t).results.getD i.val FutState.pending = FutState.failed) := by
  rcases hpw with ⟨hfreeze, hwait, hnowait⟩
  have hdone : t i ≠ FutState.pending := by
    by_cases hw : truthy (should_wait ALL_COMPLETED s) = true
    · exact (isDone_iff _).mp ((hwait hw).2 rfl i hact)
    · rw [Bool.not_eq_true] at hw
      have hts := hnowait hw i
      rcases (should_wait_all_falsy s).mp hw with hall | hres
      · exfalso
        have : doneExhausted (s i) = false := by
          simpa [listenning_for] using hact
        rw [hall i] at this
        cases this
      · rw [hts]
        exact (isDone_iff _).mp (hres i).1
  rw [results_getD s t i FutState.pending]
  cases ht : t i with
  | pending => exact absurd ht hdone
  | value x => exact Or.inl ⟨x, rfl⟩
  | exhausted => exact Or.inr (Or.inl rfl)
  | failed => exact Or.inr (Or.inr rfl)

/-- C7 witness: a one-slot round whose slot has already resolved with a
value — active, emitted, and its row entry is a `Value`. -/
theorem c7_all_no_pending_witness :
    postWaitOk ALL_COMPLETED valueState valueState ∧
    (nextRound valueState valueState).raisesStop = false ∧
    listenning_for valueState 0 = true ∧
    ((∃ x, (nextRound valueState valueState).results.getD (0 : Fin 1).val
        FutState.pending = FutState.value x) ∨
      (nextRound valueState valueState).results.getD (0 : Fin 1).val
        FutState.pending = FutState.exhausted ∨
      (nextRound valueState valueState).results.getD (0 : Fin 1).val
        FutState.pending = FutState.failed) := by
  have h1 : postWaitOk ALL_COMPLETED valueState valueState := by
    unfold postWaitOk waiterCond
    decide
  have h2 : (nextRound valueState valueState).raisesStop = false := by decide
  have h3 : listenning_for valueState 0 = true := by decide
  exact ⟨h1, h2, h3, c7_all_no_pending valueState valueState h1 h2 0 h3⟩

/-- C8.  Under `FIRST_COMPLETED`, every round that emits a row (does not
raise) has at least one slot that was active at the start of the round
and whose `results` entry is not `Pending`. -/
theorem c8_first_some_nonpending {n : Nat} (s t : Fin n → FutState)
    (hpw : postWaitOk FIRST_COMPLETED s t)
    (hemit : (nextRound s t).raisesStop = false) :
    ∃ i, listenning_for s i = true ∧
      (nextRound s t).results.getD i.val FutState.pending ≠ FutState.pending := by
  rcases hpw with ⟨hfreeze, hwait, hnowait⟩
  by_cases hw : truthy (should_wait FIRST_COMPLETED s) = true
  · obtain ⟨i, hl, hd⟩ := (hwait hw).1 rfl
    refine ⟨i, hl, ?_⟩
    rw [results_getD]
    exact (isDone_iff _).mp hd
  · rw [Bool.not_eq_true] at hw
    have hts := hnowait hw
    rcases (should_wait_first_falsy s).mp hw with hall | ⟨i, hl, hd⟩
    · exfalso
      have : (nextRound s t).raisesStop = true := by
        rw [raisesStop_iff]
        exact fun i => Or.inl (hall i)
      rw [this] at hemit
      cases hemit
    · refine ⟨i, hl, ?_⟩
      rw [results_getD, hts i]
      exact (isDone_iff _).mp hd

/-- C8 witness: the same emitted one-slot round — its single active slot
carries a non-`Pending` entry. -/
theorem c8_first_some_nonpending_witness :
    postWaitOk FIRST_COMPLETED valueState valueState ∧
    (nextRound valueState valueState).raisesStop = false ∧
    ∃ i, listenning_for valueState i = true ∧
      (nextRound valueState valueState).results.getD i.val FutState.pending ≠
        FutState.pending := by
  have h1 : postWaitOk FIRST_COMPLETED valueState valueState := by
    unfold postWaitOk waiterCond
    decide
  have h2 : (nextRound valueState valueState).raisesStop = false := by decide
  exact ⟨h1, h2, c8_first_some_nonpending valueState valueState h1 h2⟩

/-- A reachable one-slot state whose only future has resolved with a
non-`StopAsyncIteration` exception. -/
def failedState : Fin 1 → FutState := fun _ => FutState.failed

/-- C2, counterexample.  A round entered with a slot resolved by a
non-exhaustion error (and which does not wait, so the post-wait state is
unchanged) takes the `elif f.done():` branch for that slot: a fresh fetch
is issued even though the most recent resolution was not a value. -/
theorem c2_reissue_cex :
    postWaitOk FIRST_COMPLETED failedState failedState ∧
    failedState 0 = FutState.failed ∧
    (nextRound failedState failedState).reissued 0 = true := by
  refine ⟨?_, rfl, rfl⟩
  unfold postWaitOk waiterCond
  decide

/-- C2, amended.  A fresh fetch is issued for a slot iff the slot was in
the active set at the start of the round and its operation has completed
with anything other than exhaustion — a value or a non-exhaustion error.
In particular the core does re-fetch after a failure (it neither retries
the failed operation itself nor leaves the slot idle). -/
theorem c2_reissue_rule {n : Nat} (s t : Fin n → FutState) (i : Fin n) :
    (nextRound s t).reissued i = true ↔
      (listenning_for s i = true ∧
        ((∃ x, t i = FutState.value x) ∨ t i = FutState.failed)) := by
  cases ht : t i <;>
    simp [nextRound, isDone, isStopAsyncIteration, ht]

/-- C3, counterexample.  The empty string is not a recognised policy,
yet `AsyncZip.__init__` accepts it: construction succeeds and stores the
invalid value — nothing fails at construction time. -/
theorem c3_init_cex :
    (("" : String) ≠ FIRST_COMPLETED ∧ ("" : String) ≠ ALL_COMPLETED) ∧
    AsyncZip_init "" = Except.ok { yield_when := "", iterating := [] } :=
  ⟨⟨by decide, by decide⟩, rfl⟩

/-- C3, amended.  Constructing an aggregator never fails, whatever the
wait-policy value: `__init__` stores `yield_when` unvalidated; an invalid
policy only surfaces later, when `should_wait` falls through all branches
and returns `None`. -/
theorem c3_init_never_fails (yield_when : String) :
    AsyncZip_init yield_when =
      Except.ok { yield_when := yield_when, iterating := [] } :=
  rfl
